import Mathlib

/-!
Shallow embedding of the MBA-course execution controller and report
exporter (src/MBA-course/run_agent.py and src/MBA-course/report_export.py).

Python strings are modelled as lists of characters; the Python string
methods the source uses (strip, startswith, endswith, split, join,
dict.get) are given explicit executable models. The inline-markup pass
models the behaviour of re.split with the captured alternation
of a lazily matched double-star span tried before a lazily matched
single-star span, scanning left to right for the leftmost match.
-/

namespace MBA

/-- Python strings modelled as lists of characters. -/
abbrev Str := List Char

/-- Characters stripped by Python str.strip on ASCII input. -/
def pyIsSpace (c : Char) : Bool :=
  c == ' ' || c == '\t' || c == '\n' || c == '\r' || c == '\x0b' || c == '\x0c'

/-- Python str.strip: remove whitespace from both ends. -/
def pyStrip (s : Str) : Str :=
  ((s.dropWhile pyIsSpace).reverse.dropWhile pyIsSpace).reverse

/-- Python str.startswith. -/
def startsWith (s pre : Str) : Bool := List.isPrefixOf pre s

/-- Python str.endswith. -/
def endsWith (s suf : Str) : Bool := List.isSuffixOf suf s

/-- Python sep.join over a list of strings. -/
def joinSep (sep : Str) : List Str → Str
  | [] => []
  | [x] => x
  | x :: y :: xs => x ++ sep ++ joinSep sep (y :: xs)

/-- Python dict.get with a default, on an insertion-ordered association list. -/
def pyGet (d : List (Str × Str)) (k dflt : Str) : Str :=
  (List.lookup k d).getD dflt

/-- Python text.split on a newline separator. -/
def splitNlAux : Str → Str → List Str
  | acc, [] => [acc.reverse]
  | acc, c :: cs =>
    if c = '\n' then acc.reverse :: splitNlAux [] cs else splitNlAux (c :: acc) cs

/-- Python text.split on a newline. -/
def splitNl (s : Str) : List Str := splitNlAux [] s

/-- Lazy body of the bold alternative: consume the minimal run of non-newline
    characters up to and including a closing double star; the result is the
    number of characters consumed. -/
def lazyUntil2Star : Str → Option Nat
  | '*' :: '*' :: _ => some 2
  | c :: cs => if c = '\n' then none else (lazyUntil2Star cs).map (· + 1)
  | [] => none

/-- Lazy body of the italic alternative: consume the minimal run of
    non-newline characters up to and including a closing star. -/
def lazyUntil1Star : Str → Option Nat
  | '*' :: _ => some 1
  | c :: cs => if c = '\n' then none else (lazyUntil1Star cs).map (· + 1)
  | [] => none

/-- Match of the delimiter alternation at the head of the input: the bold
    alternative is tried first, then the italic one. Returns the length of
    the match. -/
def matchDelim : Str → Option Nat
  | '*' :: '*' :: rest =>
    match lazyUntil2Star rest with
    | some n => some (2 + n)
    | none =>
      match lazyUntil1Star ('*' :: rest) with
      | some m => some (1 + m)
      | none => none
  | '*' :: rest =>
    match lazyUntil1Star rest with
    | some m => some (1 + m)
    | none => none
  | _ => none

/-- Splitting with a captured group: the output alternates non-match and
    match substrings and keeps empty non-match parts, as re.split does.
    One unit of fuel is spent per consumed character, so fuel equal to the
    input length always suffices. -/
def reSplitAux : Nat → Str → Str → List Str
  | _, acc, [] => [acc.reverse]
  | 0, acc, cs => [acc.reverse ++ cs]
  | fuel + 1, acc, c :: rest =>
    match matchDelim (c :: rest) with
    | some n =>
      acc.reverse :: (c :: rest).take n :: reSplitAux fuel [] ((c :: rest).drop n)
    | none => reSplitAux fuel (c :: acc) rest

/-- The list of parts produced by re.split with the captured delimiter
    alternation. -/
def reSplit (s : Str) : List Str := reSplitAux s.length [] s

/-- Style flag carried by one docx run. -/
inductive Style
  | bold
  | italic
  | none
  deriving DecidableEq

/-- One docx run: a style flag and the run text. -/
abbrev Run := Style × Str

/-- The branch chain of the loop body of _add_formatted_runs applied to one
    part returned by the split. -/
def classifyPart (part : Str) : Run :=
  if startsWith part ("**".toList) && endsWith part ("**".toList) then
    (Style.bold, (part.drop 2).take (part.length - 4))
  else if startsWith part ("*".toList) && endsWith part ("*".toList) then
    (Style.italic, (part.drop 1).take (part.length - 2))
  else (Style.none, part)

/-- Embedding of report_export._add_formatted_runs: the runs added to the
    paragraph, in order. -/
def add_formatted_runs (text : Str) : List Run := (reSplit text).map classifyPart

/-- A document element produced by the markdown renderer. -/
inductive MdElem
  | heading (level : Nat) (text : Str)
  | bullet (runs : List Run)
  | para (runs : List Run)
  deriving DecidableEq

/-- Embedding of one loop step of report_export._md_lines_to_docx: the
    element produced for one line, none for a blank line. -/
def md_line_elem (line : Str) : Option MdElem :=
  let stripped := pyStrip line
  if startsWith stripped ("### ".toList) then some (MdElem.heading 3 (stripped.drop 4))
  else if startsWith stripped ("## ".toList) then some (MdElem.heading 2 (stripped.drop 3))
  else if startsWith stripped ("# ".toList) then some (MdElem.heading 1 (stripped.drop 2))
  else if startsWith stripped ("- ".toList) || startsWith stripped ("* ".toList) then
    some (MdElem.bullet (add_formatted_runs (stripped.drop 2)))
  else if stripped ≠ [] then some (MdElem.para (add_formatted_runs stripped))
  else Option.none

/-- Embedding of report_export._md_lines_to_docx over a whole text. -/
def md_lines_to_docx (text : Str) : List MdElem :=
  (splitNl text).filterMap md_line_elem

/-- Per-agent configuration entry: the chosen model identifier. -/
structure AgentCfg where
  model : Str
  deriving DecidableEq

/-- The CONFIG dict passed to save_all: the free-text query and the
    insertion-ordered role-to-agent mapping. -/
structure Config where
  input_query : Str
  agents : List (Str × AgentCfg)
  deriving DecidableEq

/-- The comma-joined role=model listing built at the top of save_all. -/
def agentsStr (config : Config) : Str :=
  joinSep (", ".toList) (config.agents.map fun kv => kv.1 ++ ("=".toList) ++ kv.2.model)

/-- Values appearing in the meta.yaml record; the elapsed time is modelled
    as an exact rational. -/
inductive YamlVal
  | s (v : Str)
  | b (v : Bool)
  | num (v : ℚ)
  | map (kvs : List (Str × YamlVal))

/-- Round to the nearest integer with ties to even, the behaviour of the
    Python round builtin on exact values. -/
def roundHalfEven (q : ℚ) : ℤ :=
  if q - ⌊q⌋ < 1/2 then ⌊q⌋
  else if q - ⌊q⌋ > 1/2 then ⌊q⌋ + 1
  else if ⌊q⌋ % 2 = 0 then ⌊q⌋ else ⌊q⌋ + 1

/-- Python round to one decimal place, modelled on exact rationals. -/
def pyRound1 (q : ℚ) : ℚ := ((roundHalfEven (q * 10) : ℤ) : ℚ) / 10

/-- The meta.yaml mapping written by save_all, in insertion order;
    yaml.dump is called with sort_keys set to false, so the serialized key
    order is the insertion order of this list. -/
def metaYaml (config : Config) (nowIso : Str) (elapsed : ℚ) : List (Str × YamlVal) :=
  [ (("timestamp".toList), YamlVal.s nowIso),
    (("input_query".toList), YamlVal.s config.input_query),
    (("auto_approve".toList), YamlVal.b false),
    (("models".toList), YamlVal.map (config.agents.map fun kv => (kv.1, YamlVal.s kv.2.model))),
    (("elapsed_seconds".toList), YamlVal.num (pyRound1 elapsed)) ]

/-- The final agent state passed to save_all: a string-keyed mapping read
    only through dict.get. -/
abbrev RunResult := List (Str × Str)

/-- The markdown report text written by save_all, concatenating the
    f.write calls in source order. -/
def mdContent (result : RunResult) (config : Config) (nowIso : Str) : Str :=
  ("# MBA Strategy Report v4\n\n".toList) ++
  ("**Generated:** ".toList) ++ nowIso ++ ("\n".toList) ++
  ("**Agents:** ".toList) ++ agentsStr config ++ ("\n\n---\n\n".toList) ++
  pyGet result ("recommendation".toList) [] ++
  ("\n\n---\n\n".toList) ++
  pyGet result ("action_plan".toList) []

/-- The rendered docx body: the recommendation then the action plan, each
    rendered only when the fetched text is non-empty, as in the source's
    truthiness guards; page breaks and cover styling are abstracted away. -/
def docxBody (result : RunResult) : List MdElem :=
  (if pyGet result ("recommendation".toList) [] ≠ [] then
     md_lines_to_docx (pyGet result ("recommendation".toList) []) else []) ++
  (if pyGet result ("action_plan".toList) [] ≠ [] then
     md_lines_to_docx (pyGet result ("action_plan".toList) []) else [])

/-- The docx document composed by save_all: the cover-page query and model
    listing and the rendered body. -/
structure DocxFile where
  coverQuery : Str
  coverModels : Str
  body : List MdElem

/-- Composition of the docx document from the result and config. -/
def composeDocx (result : RunResult) (config : Config) : DocxFile :=
  { coverQuery := config.input_query
    coverModels := agentsStr config
    body := docxBody result }

/-- Outcome of the docx try block: the import and the composition succeed,
    the import fails, or some step of the composition raises. -/
inductive DocxOutcome
  | ok
  | importError
  | failure (msg : Str)

/-- One observable effect of save_all. -/
inductive SaveEvent
  | writeFileStr (path : Str) (content : Str)
  | writeMeta (path : Str) (content : List (Str × YamlVal))
  | writeDocx (path : Str) (doc : DocxFile)
  | printed (msg : Str)

/-- Path join, with the output directory identified by its name. -/
def joinPath (dir name : Str) : Str := dir ++ ("/".toList) ++ name

/-- Name of the markdown report file for a timestamped directory. -/
def mdFileName (ts : Str) : Str := ("report_".toList) ++ ts ++ (".md".toList)

/-- Name of the docx report file for a timestamped directory. -/
def docxFileName (ts : Str) : Str := ("report_".toList) ++ ts ++ (".docx".toList)

/-- Embedding of report_export.save_all as the ordered list of filesystem
    writes and console prints it performs. The docx try block is driven by
    the supplied backend outcome: on an import error the skip notice is
    printed, on any other exception during composition the warning is
    printed, and in both cases execution continues with the trailing
    prints. -/
def save_all (result : RunResult) (config : Config) (ts : Str) (nowIso : Str)
    (elapsed : ℚ) (docx : DocxOutcome) : List SaveEvent :=
  [ SaveEvent.writeFileStr (joinPath ts (mdFileName ts)) (mdContent result config nowIso),
    SaveEvent.printed (("Markdown: ".toList) ++ joinPath ts (mdFileName ts)),
    SaveEvent.writeMeta (joinPath ts ("meta.yaml".toList)) (metaYaml config nowIso elapsed),
    SaveEvent.printed (("Meta:     ".toList) ++ joinPath ts ("meta.yaml".toList)) ] ++
  (match docx with
   | DocxOutcome.ok =>
     [ SaveEvent.writeDocx (joinPath ts (docxFileName ts)) (composeDocx result config),
       SaveEvent.printed (("DOCX:     ".toList) ++ joinPath ts (docxFileName ts)) ]
   | DocxOutcome.importError =>
     [SaveEvent.printed ("[SKIP] python-docx not installed".toList)]
   | DocxOutcome.failure m =>
     [SaveEvent.printed (("[WARNING] DOCX generation failed: ".toList) ++ m)]) ++
  [ SaveEvent.printed (("Log:      ".toList) ++ joinPath ts ("log.txt".toList)),
    SaveEvent.printed (("\nAll outputs saved to: ".toList) ++ ts) ]

/-- Where sys.stdout can point in this module: the original stream captured
    at start, or the tee writer. -/
inductive StdoutTarget
  | orig
  | teeW
  deriving DecidableEq

/-- The module-level logging state of report_export: sys.stdout together
    with the module globals and whether the tee's log file is open. -/
structure LogSys where
  stdout : Option StdoutTarget
  teeSet : Bool
  teeOpen : Bool
  origSaved : Option StdoutTarget
  deriving DecidableEq

/-- Embedding of report_export.start_log: capture the current stdout,
    install a fresh tee with an open log file. -/
def start_log (s : LogSys) : LogSys :=
  { stdout := some StdoutTarget.teeW
    teeSet := true
    teeOpen := true
    origSaved := s.stdout }

/-- Embedding of report_export.stop_log: when a tee is installed, restore
    the captured stdout, close the log file and clear the globals;
    otherwise do nothing. -/
def stop_log (s : LogSys) : LogSys :=
  if s.teeSet then
    { stdout := s.origSaved, teeSet := false, teeOpen := false, origSaved := none }
  else s

/-- A destination a write can reach. -/
inductive Dest
  | console
  | logFile
  deriving DecidableEq

/-- Result of one write through sys.stdout. -/
inductive WriteOut
  | wrote (ds : List Dest)
  | errClosedFile
  | errNoStdout
  deriving DecidableEq

/-- Destinations reached by one write through the current sys.stdout: the
    tee writes to the captured original stream and its log file, and a
    write through a tee whose file is closed fails. -/
def writeDests (s : LogSys) : WriteOut :=
  match s.stdout with
  | Option.none => WriteOut.errNoStdout
  | some StdoutTarget.orig => WriteOut.wrote [Dest.console]
  | some StdoutTarget.teeW =>
    if s.teeOpen then WriteOut.wrote [Dest.console, Dest.logFile]
    else WriteOut.errClosedFile

/-!
Embedding of run_agent.run. The resumable workflow engine is an external
collaborator; it is modelled as a state type with an initial invocation, a
resume invocation and a state query, the first two of which can raise. The
operator is modelled as a stream of raw input lines. The controller is
rendered as the ordered list of its observable events together with its
outcome; the loop gets explicit fuel, and exhausted fuel is reported as a
separate non-exit outcome.
-/

/-- An engine error, carried verbatim by a raised exception. -/
abbrev EngErr := Str

/-- One task of a state snapshot: whether the task exposes an interrupts
    attribute, and its interrupt payloads. -/
structure WTask where
  hasInterrupts : Bool
  interrupts : List Str
  deriving DecidableEq

/-- A workflow state snapshot: the pending-transitions indicator and the
    task collection. -/
structure Snapshot where
  next : List Str
  tasks : List WTask
  deriving DecidableEq

/-- The narrow engine interface used by run. -/
structure Engine (σ : Type) where
  invokeInit : σ → Except EngErr (σ × RunResult)
  resume : σ → Str → Except EngErr (σ × RunResult)
  getState : σ → Snapshot

/-- The controller's loop-local state: engine state, last returned result,
    the monotone gate counter and the next operator-input index. -/
structure LoopState (σ : Type) where
  eng : σ
  result : RunResult
  gateNum : Nat
  inputIdx : Nat
  deriving DecidableEq

/-- An observable event of one run. -/
inductive Event
  | startLog
  | invokeCall
  | resumeCall (v : Str)
  | raised
  | getStateEv
  | banner (n : Nat) (payload : Str)
  | saveAllEv
  | stopLogEv
  deriving DecidableEq

/-- Result of processing interrupts or tasks. -/
inductive StepRes (σ : Type)
  | ok (ls : LoopState σ)
  | err (e : EngErr)
  deriving DecidableEq

/-- Result of the controller loop. -/
inductive LoopRes (σ : Type)
  | ok (ls : LoopState σ)
  | err (e : EngErr)
  | fuelOut
  deriving DecidableEq

/-- Outcome of a whole run. -/
inductive Outcome
  | ok (r : RunResult)
  | raised (e : EngErr)
  | fuelOut
  deriving DecidableEq

/-- The reply normalization of the interrupt loop: strip the raw line, and
    replace an empty result by the affirmative token. -/
def normalizeFeedback (raw : Str) : Str :=
  if pyStrip raw = [] then ("approved".toList) else pyStrip raw

/-- Processing of the interrupt payloads of one task, in reported order:
    for each interrupt, the numbered banner is shown, one operator line is
    consumed and normalized, and the workflow is resumed once with it. A
    raised resume stops processing immediately. -/
def processInterrupts {σ : Type} (E : Engine σ) (ops : Nat → Str) :
    List Str → LoopState σ → List Event × StepRes σ
  | [], ls => ([], StepRes.ok ls)
  | v :: vs, ls =>
    match E.resume ls.eng (normalizeFeedback (ops ls.inputIdx)) with
    | Except.error e =>
      ([Event.banner (ls.gateNum + 1) v,
        Event.resumeCall (normalizeFeedback (ops ls.inputIdx)),
        Event.raised],
       StepRes.err e)
    | Except.ok sr =>
      (Event.banner (ls.gateNum + 1) v ::
        Event.resumeCall (normalizeFeedback (ops ls.inputIdx)) ::
        (processInterrupts E ops vs
          ⟨sr.1, sr.2, ls.gateNum + 1, ls.inputIdx + 1⟩).1,
       (processInterrupts E ops vs
          ⟨sr.1, sr.2, ls.gateNum + 1, ls.inputIdx + 1⟩).2)

/-- Processing of one snapshot's task collection: a task without an
    interrupts attribute is skipped; otherwise its interrupts are
    processed in order. -/
def processTasks {σ : Type} (E : Engine σ) (ops : Nat → Str) :
    List WTask → LoopState σ → List Event × StepRes σ
  | [], ls => ([], StepRes.ok ls)
  | t :: ts, ls =>
    if t.hasInterrupts then
      match processInterrupts E ops t.interrupts ls with
      | (tr1, StepRes.err e) => (tr1, StepRes.err e)
      | (tr1, StepRes.ok lsMid) =>
        (tr1 ++ (processTasks E ops ts lsMid).1, (processTasks E ops ts lsMid).2)
    else processTasks E ops ts ls

/-- The controller loop: query the state; stop when no pending transitions
    remain; otherwise process all tasks of the snapshot and loop. -/
def loopModel {σ : Type} (E : Engine σ) (ops : Nat → Str) :
    Nat → LoopState σ → List Event × LoopRes σ
  | 0, _ => ([], LoopRes.fuelOut)
  | fuel + 1, ls =>
    if (E.getState ls.eng).next = [] then ([Event.getStateEv], LoopRes.ok ls)
    else
      match processTasks E ops (E.getState ls.eng).tasks ls with
      | (tr1, StepRes.err e) => (Event.getStateEv :: tr1, LoopRes.err e)
      | (tr1, StepRes.ok lsMid) =>
        (Event.getStateEv :: tr1 ++ (loopModel E ops fuel lsMid).1,
         (loopModel E ops fuel lsMid).2)

/-- Embedding of run_agent.run: start the log, invoke the workflow, run the
    interrupt loop, on success save the reports, and in a finally block
    stop the log on every exit path. An exception from invoking or
    resuming the workflow is not caught and becomes the outcome. An
    exhausted-fuel loop is still inside the try block, so no teardown has
    happened yet on that non-exit. -/
def runModel {σ : Type} (E : Engine σ) (s0 : σ) (ops : Nat → Str) (fuel : Nat) :
    List Event × Outcome :=
  match E.invokeInit s0 with
  | Except.error e =>
    ([Event.startLog, Event.invokeCall, Event.raised, Event.stopLogEv], Outcome.raised e)
  | Except.ok sr =>
    match loopModel E ops fuel ⟨sr.1, sr.2, 0, 0⟩ with
    | (tr, LoopRes.ok ls) =>
      (Event.startLog :: Event.invokeCall :: tr ++ [Event.saveAllEv, Event.stopLogEv],
       Outcome.ok ls.result)
    | (tr, LoopRes.err e) =>
      (Event.startLog :: Event.invokeCall :: tr ++ [Event.stopLogEv], Outcome.raised e)
    | (tr, LoopRes.fuelOut) =>
      (Event.startLog :: Event.invokeCall :: tr, Outcome.fuelOut)

/-- The interrupt payloads a snapshot's task collection reports, in
    discovery order: tasks in order, the interrupts of each task that
    exposes them in order. -/
def reportedInterrupts : List WTask → List Str
  | [] => []
  | t :: ts => (if t.hasInterrupts then t.interrupts else []) ++ reportedInterrupts ts

/-- The value of a resume-invocation event. -/
def resumeValueOf : Event → Option Str
  | Event.resumeCall v => some v
  | _ => Option.none

/-- The resume values of a trace, in order. -/
def resumeValues (tr : List Event) : List Str := tr.filterMap resumeValueOf

/-- Number of resume invocations in a trace. -/
def countResume (tr : List Event) : Nat := (resumeValues tr).length

/-- The trace one iteration is expected to emit for a reported interrupt
    sequence: for each interrupt in discovery order, its numbered banner
    followed immediately by one resume invocation carrying the normalized
    operator reply; gate numbers and input indices advance by one per
    interrupt. -/
def expectedIntrTrace (ops : Nat → Str) : Nat → Nat → List Str → List Event
  | _, _, [] => []
  | g, idx, v :: vs =>
    Event.banner (g + 1) v ::
      Event.resumeCall (normalizeFeedback (ops idx)) ::
      expectedIntrTrace ops (g + 1) (idx + 1) vs

/-- Appending reported-interrupt sequences splits the expected trace, with
    the counters advanced by the length of the first part. -/
theorem expectedIntrTrace_append (ops : Nat → Str) :
    ∀ (xs ys : List Str) (g idx : Nat),
      expectedIntrTrace ops g idx (xs ++ ys) =
        expectedIntrTrace ops g idx xs ++
          expectedIntrTrace ops (g + xs.length) (idx + xs.length) ys := by
  intro xs
  induction xs with
  | nil => intro ys g idx; simp [expectedIntrTrace]
  | cons x xs ih =>
    intro ys g idx
    simp only [List.cons_append, expectedIntrTrace, List.append_eq]
    rw [ih]
    have hg : g + 1 + xs.length = g + (x :: xs).length := by
      simp only [List.length_cons]; omega
    have hi : idx + 1 + xs.length = idx + (x :: xs).length := by
      simp only [List.length_cons]; omega
    rw [hg, hi]

/-- A successful interrupt pass emits exactly the expected trace and
    advances the gate counter and the input index by the number of
    interrupts. -/
theorem processInterrupts_ok {σ : Type} (E : Engine σ) (ops : Nat → Str) :
    ∀ (vs : List Str) (ls : LoopState σ) (tr : List Event) (ls2 : LoopState σ),
      processInterrupts E ops vs ls = (tr, StepRes.ok ls2) →
      tr = expectedIntrTrace ops ls.gateNum ls.inputIdx vs ∧
        ls2.gateNum = ls.gateNum + vs.length ∧
        ls2.inputIdx = ls.inputIdx + vs.length := by
  intro vs
  induction vs with
  | nil =>
    intro ls tr ls2 h
    simp only [processInterrupts] at h
    injection h with h1 h2
    injection h2 with h3
    subst h1; subst h3
    simp [expectedIntrTrace]
  | cons v vs ih =>
    intro ls tr ls2 h
    simp only [processInterrupts] at h
    split at h
    next e heq => simp at h
    next sr heq =>
      cases hrec : processInterrupts E ops vs ⟨sr.1, sr.2, ls.gateNum + 1, ls.inputIdx + 1⟩ with
      | mk tr2 res2 =>
        rw [hrec] at h
        injection h with h1 h2
        subst h1
        cases res2 with
        | err e => simp at h2
        | ok lsRec =>
          injection h2 with h3
          subst h3
          obtain ⟨ht, hg, hi⟩ := ih ⟨sr.1, sr.2, ls.gateNum + 1, ls.inputIdx + 1⟩ tr2 lsRec hrec
          refine ⟨?_, ?_, ?_⟩
          · simp only [expectedIntrTrace, ht]
          · simp only [List.length_cons]; simp at hg; omega
          · simp only [List.length_cons]; simp at hi; omega

/-- A successful task pass emits exactly the expected trace for the
    reported interrupts of the task collection, and advances the counters
    by their number. -/
theorem processTasks_ok {σ : Type} (E : Engine σ) (ops : Nat → Str) :
    ∀ (tasks : List WTask) (ls : LoopState σ) (tr : List Event) (ls2 : LoopState σ),
      processTasks E ops tasks ls = (tr, StepRes.ok ls2) →
      tr = expectedIntrTrace ops ls.gateNum ls.inputIdx (reportedInterrupts tasks) ∧
        ls2.gateNum = ls.gateNum + (reportedInterrupts tasks).length ∧
        ls2.inputIdx = ls.inputIdx + (reportedInterrupts tasks).length := by
  intro tasks
  induction tasks with
  | nil =>
    intro ls tr ls2 h
    simp only [processTasks] at h
    injection h with h1 h2
    injection h2 with h3
    subst h1; subst h3
    simp [reportedInterrupts, expectedIntrTrace]
  | cons t ts ih =>
    intro ls tr ls2 h
    simp only [processTasks] at h
    by_cases hint : t.hasInterrupts
    · rw [if_pos hint] at h
      split at h
      next tr1 e heq => simp at h
      next tr1 lsMid heq =>
        injection h with h1 h2
        subst h1
        cases hrec : processTasks E ops ts lsMid with
        | mk trR resR =>
          rw [hrec] at h2
          cases resR with
          | err e => simp at h2
          | ok lsR =>
            injection h2 with h3
            subst h3
            obtain ⟨ht1, hg1, hi1⟩ := processInterrupts_ok E ops t.interrupts ls tr1 lsMid heq
            obtain ⟨htR, hgR, hiR⟩ := ih lsMid trR lsR hrec
            refine ⟨?_, ?_, ?_⟩
            · rw [ht1, htR, hg1, hi1]
              simp only [reportedInterrupts, if_pos hint]
              rw [expectedIntrTrace_append]
            · simp only [reportedInterrupts, if_pos hint, List.length_append]
              omega
            · simp only [reportedInterrupts, if_pos hint, List.length_append]
              omega
    · rw [if_neg hint] at h
      obtain ⟨htR, hgR, hiR⟩ := ih ls tr ls2 h
      have hrep : reportedInterrupts (t :: ts) = reportedInterrupts ts := by
        simp [reportedInterrupts, hint]
      rw [hrep]
      exact ⟨htR, hgR, hiR⟩

/-- The expected iteration trace consists of banners and resume calls only:
    it never contains a raise marker or a log teardown. -/
theorem expectedIntrTrace_noBad (ops : Nat → Str) :
    ∀ (vs : List Str) (g idx : Nat),
      Event.raised ∉ expectedIntrTrace ops g idx vs ∧
        Event.stopLogEv ∉ expectedIntrTrace ops g idx vs := by
  intro vs
  induction vs with
  | nil => intro g idx; simp [expectedIntrTrace]
  | cons v vs ih =>
    intro g idx
    have := ih (g + 1) (idx + 1)
    simp only [expectedIntrTrace, List.mem_cons]
    constructor
    · intro hmem
      rcases hmem with h | h | h
      · exact Event.noConfusion h
      · exact Event.noConfusion h
      · exact this.1 h
    · intro hmem
      rcases hmem with h | h | h
      · exact Event.noConfusion h
      · exact Event.noConfusion h
      · exact this.2 h

/-- A failing interrupt pass ends in a raise marker, with no earlier raise
    and no teardown in its trace. -/
theorem processInterrupts_err {σ : Type} (E : Engine σ) (ops : Nat → Str) :
    ∀ (vs : List Str) (ls : LoopState σ) (tr : List Event) (e : EngErr),
      processInterrupts E ops vs ls = (tr, StepRes.err e) →
      ∃ pre, tr = pre ++ [Event.raised] ∧
        Event.raised ∉ pre ∧ Event.stopLogEv ∉ pre := by
  intro vs
  induction vs with
  | nil =>
    intro ls tr e h
    simp only [processInterrupts] at h
    simp at h
  | cons v vs ih =>
    intro ls tr e h
    simp only [processInterrupts] at h
    split at h
    next e2 heq =>
      injection h with h1 h2
      subst h1
      refine ⟨[Event.banner (ls.gateNum + 1) v,
               Event.resumeCall (normalizeFeedback (ops ls.inputIdx))], rfl, ?_, ?_⟩ <;> simp
    next sr heq =>
      cases hrec : processInterrupts E ops vs ⟨sr.1, sr.2, ls.gateNum + 1, ls.inputIdx + 1⟩ with
      | mk tr2 res2 =>
        rw [hrec] at h
        injection h with h1 h2
        subst h1
        cases res2 with
        | ok lsR => simp at h2
        | err e2 =>
          injection h2 with h3
          subst h3
          obtain ⟨pre, hpre, hr, hs⟩ :=
            ih ⟨sr.1, sr.2, ls.gateNum + 1, ls.inputIdx + 1⟩ tr2 e2 hrec
          refine ⟨Event.banner (ls.gateNum + 1) v ::
                    Event.resumeCall (normalizeFeedback (ops ls.inputIdx)) :: pre, ?_, ?_, ?_⟩
          · simp [hpre]
          · simp only [List.mem_cons]
            intro hmem
            rcases hmem with hx | hx | hx
            · exact Event.noConfusion hx
            · exact Event.noConfusion hx
            · exact hr hx
          · simp only [List.mem_cons]
            intro hmem
            rcases hmem with hx | hx | hx
            · exact Event.noConfusion hx
            · exact Event.noConfusion hx
            · exact hs hx

/-- A failing task pass ends in a raise marker, with no earlier raise and
    no teardown in its trace. -/
theorem processTasks_err {σ : Type} (E : Engine σ) (ops : Nat → Str) :
    ∀ (tasks : List WTask) (ls : LoopState σ) (tr : List Event) (e : EngErr),
      processTasks E ops tasks ls = (tr, StepRes.err e) →
      ∃ pre, tr = pre ++ [Event.raised] ∧
        Event.raised ∉ pre ∧ Event.stopLogEv ∉ pre := by
  intro tasks
  induction tasks with
  | nil =>
    intro ls tr e h
    simp only [processTasks] at h
    simp at h
  | cons t ts ih =>
    intro ls tr e h
    simp only [processTasks] at h
    by_cases hint : t.hasInterrupts
    · rw [if_pos hint] at h
      split at h
      next tr1 e2 heq =>
        injection h with h1 h2
        subst h1
        injection h2 with h3
        subst h3
        exact processInterrupts_err E ops t.interrupts ls tr1 e2 heq
      next tr1 lsMid heq =>
        injection h with h1 h2
        subst h1
        cases hrec : processTasks E ops ts lsMid with
        | mk trR resR =>
          rw [hrec] at h2
          cases resR with
          | ok lsR => simp at h2
          | err e2 =>
            injection h2 with h3
            subst h3
            obtain ⟨pre, hpre, hr, hs⟩ := ih lsMid trR e2 hrec
            obtain ⟨ht1, _, _⟩ := processInterrupts_ok E ops t.interrupts ls tr1 lsMid heq
            obtain ⟨hnr, hns⟩ :=
              expectedIntrTrace_noBad ops t.interrupts ls.gateNum ls.inputIdx
            refine ⟨tr1 ++ pre, ?_, ?_, ?_⟩
            · simp [hpre]
            · rw [ht1]
              simp only [List.mem_append]
              intro hmem
              rcases hmem with hx | hx
              · exact hnr hx
              · exact hr hx
            · rw [ht1]
              simp only [List.mem_append]
              intro hmem
              rcases hmem with hx | hx
              · exact hns hx
              · exact hs hx
    · rw [if_neg hint] at h
      exact ih ls tr e h

/-- A successful loop trace contains no raise marker and no teardown. -/
theorem loopModel_ok_noBad {σ : Type} (E : Engine σ) (ops : Nat → Str) :
    ∀ (fuel : Nat) (ls : LoopState σ) (tr : List Event) (ls2 : LoopState σ),
      loopModel E ops fuel ls = (tr, LoopRes.ok ls2) →
      Event.raised ∉ tr ∧ Event.stopLogEv ∉ tr := by
  intro fuel
  induction fuel with
  | zero =>
    intro ls tr ls2 h
    simp only [loopModel] at h
    simp at h
  | succ fuel ih =>
    intro ls tr ls2 h
    simp only [loopModel] at h
    by_cases hnext : (E.getState ls.eng).next = []
    · rw [if_pos hnext] at h
      injection h with h1 h2
      subst h1
      simp
    · rw [if_neg hnext] at h
      split at h
      next tr1 e heq => simp at h
      next tr1 lsMid heq =>
        cases hrec : loopModel E ops fuel lsMid with
        | mk trR resR =>
          rw [hrec] at h
          injection h with h1 h2
          subst h1
          cases resR with
          | err e => simp at h2
          | fuelOut => simp at h2
          | ok lsR =>
            obtain ⟨ht1, _, _⟩ :=
              processTasks_ok E ops (E.getState ls.eng).tasks ls tr1 lsMid heq
            obtain ⟨hnr, hns⟩ :=
              expectedIntrTrace_noBad ops
                (reportedInterrupts (E.getState ls.eng).tasks) ls.gateNum ls.inputIdx
            obtain ⟨hr2, hs2⟩ := ih lsMid trR lsR hrec
            rw [ht1]
            constructor
            · simp only [List.mem_cons, List.mem_append, List.cons_append]
              intro hmem
              rcases hmem with hx | hx | hx
              · exact Event.noConfusion hx
              · exact hnr hx
              · exact hr2 hx
            · simp only [List.mem_cons, List.mem_append, List.cons_append]
              intro hmem
              rcases hmem with hx | hx | hx
              · exact Event.noConfusion hx
              · exact hns hx
              · exact hs2 hx

/-- A failing loop trace ends in a raise marker, with no earlier raise and
    no teardown. -/
theorem loopModel_err {σ : Type} (E : Engine σ) (ops : Nat → Str) :
    ∀ (fuel : Nat) (ls : LoopState σ) (tr : List Event) (e : EngErr),
      loopModel E ops fuel ls = (tr, LoopRes.err e) →
      ∃ pre, tr = pre ++ [Event.raised] ∧
        Event.raised ∉ pre ∧ Event.stopLogEv ∉ pre := by
  intro fuel
  induction fuel with
  | zero =>
    intro ls tr e h
    simp only [loopModel] at h
    simp at h
  | succ fuel ih =>
    intro ls tr e h
    simp only [loopModel] at h
    by_cases hnext : (E.getState ls.eng).next = []
    · rw [if_pos hnext] at h
      simp at h
    · rw [if_neg hnext] at h
      split at h
      next tr1 e2 heq =>
        injection h with h1 h2
        subst h1
        injection h2 with h3
        subst h3
        obtain ⟨pre, hpre, hr, hs⟩ :=
          processTasks_err E ops (E.getState ls.eng).tasks ls tr1 e2 heq
        refine ⟨Event.getStateEv :: pre, ?_, ?_, ?_⟩
        · simp [hpre]
        · simp only [List.mem_cons]
          intro hmem
          rcases hmem with hx | hx
          · exact Event.noConfusion hx
          · exact hr hx
        · simp only [List.mem_cons]
          intro hmem
          rcases hmem with hx | hx
          · exact Event.noConfusion hx
          · exact hs hx
      next tr1 lsMid heq =>
        cases hrec : loopModel E ops fuel lsMid with
        | mk trR resR =>
          rw [hrec] at h
          injection h with h1 h2
          subst h1
          cases resR with
          | ok lsR => simp at h2
          | fuelOut => simp at h2
          | err e2 =>
            injection h2 with h3
            subst h3
            obtain ⟨pre, hpre, hr, hs⟩ := ih lsMid trR e2 hrec
            obtain ⟨ht1, _, _⟩ :=
              processTasks_ok E ops (E.getState ls.eng).tasks ls tr1 lsMid heq
            obtain ⟨hnr, hns⟩ :=
              expectedIntrTrace_noBad ops
                (reportedInterrupts (E.getState ls.eng).tasks) ls.gateNum ls.inputIdx
            refine ⟨Event.getStateEv :: tr1 ++ pre, ?_, ?_, ?_⟩
            · simp [hpre]
            · rw [ht1]
              simp only [List.cons_append, List.mem_cons, List.mem_append]
              intro hmem
              rcases hmem with hx | hx | hx
              · exact Event.noConfusion hx
              · exact hnr hx
              · exact hr hx
            · rw [ht1]
              simp only [List.cons_append, List.mem_cons, List.mem_append]
              intro hmem
              rcases hmem with hx | hx | hx
              · exact Event.noConfusion hx
              · exact hns hx
              · exact hs hx

/-- The expected iteration trace carries exactly one resume value per
    interrupt: the normalized operator reply at the successive input
    indices. -/
theorem resumeValues_expected (ops : Nat → Str) :
    ∀ (vs : List Str) (g idx : Nat),
      resumeValues (expectedIntrTrace ops g idx vs) =
        (List.range vs.length).map (fun j => normalizeFeedback (ops (idx + j))) := by
  intro vs
  induction vs with
  | nil => intro g idx; simp [expectedIntrTrace, resumeValues]
  | cons v vs ih =>
    intro g idx
    have ih2 := ih (g + 1) (idx + 1)
    simp only [resumeValues] at ih2 ⊢
    simp only [expectedIntrTrace, List.filterMap_cons, resumeValueOf,
      List.length_cons, List.range_succ_eq_map, List.map_cons, List.map_map]
    rw [ih2]
    simp only [Nat.add_zero]
    refine congrArg (List.cons (normalizeFeedback (ops idx))) ?_
    apply List.map_congr_left
    intro a ha
    have hx : idx + 1 + a = idx + (a + 1) := by omega
    simp [Function.comp, hx, Nat.succ_eq_add_one]

/-- The expected iteration trace contains exactly one resume invocation per
    reported interrupt. -/
theorem countResume_expected (ops : Nat → Str) (vs : List Str) (g idx : Nat) :
    countResume (expectedIntrTrace ops g idx vs) = vs.length := by
  simp [countResume, resumeValues_expected]

/-- A trace of the form prefix plus final event, with the final event not
    in the prefix, ends in that event and contains it exactly once. -/
theorem concat_last_count (pre : List Event) (a : Event) (hn : a ∉ pre) :
    (pre ++ [a]).getLast? = some a ∧ (pre ++ [a]).count a = 1 := by
  constructor
  · exact List.getLast?_concat pre
  · rw [List.count_append, List.count_eq_zero.mpr hn]
    simp

/-- On a raised outcome, the run trace is a prefix free of raise markers
    and teardowns, followed by the raise marker and then the teardown. -/
theorem runModel_raised {σ : Type} (E : Engine σ) (s0 : σ) (ops : Nat → Str) (fuel : Nat)
    (e : EngErr) (h : (runModel E s0 ops fuel).2 = Outcome.raised e) :
    ∃ pre, (runModel E s0 ops fuel).1 = pre ++ [Event.raised, Event.stopLogEv] ∧
      Event.raised ∉ pre ∧ Event.stopLogEv ∉ pre := by
  cases hinit : E.invokeInit s0 with
  | error e0 =>
    refine ⟨[Event.startLog, Event.invokeCall], ?_, ?_, ?_⟩ <;> simp [runModel, hinit]
  | ok sr =>
    cases hlp : loopModel E ops fuel ⟨sr.1, sr.2, 0, 0⟩ with
    | mk trL resL =>
      cases resL with
      | ok ls => simp [runModel, hinit, hlp] at h
      | fuelOut => simp [runModel, hinit, hlp] at h
      | err e2 =>
        obtain ⟨pre, hpre, hr, hs⟩ := loopModel_err E ops fuel ⟨sr.1, sr.2, 0, 0⟩ trL e2 hlp
        refine ⟨Event.startLog :: Event.invokeCall :: pre, ?_, ?_, ?_⟩
        · simp [runModel, hinit, hlp, hpre]
        · simp only [List.mem_cons]
          rintro (hx | hx | hx)
          · exact Event.noConfusion hx
          · exact Event.noConfusion hx
          · exact hr hx
        · simp only [List.mem_cons]
          rintro (hx | hx | hx)
          · exact Event.noConfusion hx
          · exact Event.noConfusion hx
          · exact hs hx

/-- On a normal outcome, the run trace is a prefix free of teardowns
    followed by exactly one teardown. -/
theorem runModel_okTeardown {σ : Type} (E : Engine σ) (s0 : σ) (ops : Nat → Str) (fuel : Nat)
    (r : RunResult) (h : (runModel E s0 ops fuel).2 = Outcome.ok r) :
    ∃ pre, (runModel E s0 ops fuel).1 = pre ++ [Event.stopLogEv] ∧
      Event.stopLogEv ∉ pre := by
  cases hinit : E.invokeInit s0 with
  | error e0 => simp [runModel, hinit] at h
  | ok sr =>
    cases hlp : loopModel E ops fuel ⟨sr.1, sr.2, 0, 0⟩ with
    | mk trL resL =>
      cases resL with
      | err e2 => simp [runModel, hinit, hlp] at h
      | fuelOut => simp [runModel, hinit, hlp] at h
      | ok ls =>
        obtain ⟨_, hs⟩ := loopModel_ok_noBad E ops fuel ⟨sr.1, sr.2, 0, 0⟩ trL ls hlp
        refine ⟨Event.startLog :: Event.invokeCall :: trL ++ [Event.saveAllEv], ?_, ?_⟩
        · simp [runModel, hinit, hlp]
        · intro hmem
          simp at hmem
          exact hs hmem

/-- An engine whose interactions always succeed and whose snapshot is
    terminal, used to exercise the controller model on concrete inputs. -/
def engAccept : Engine Nat :=
  { invokeInit := fun s => Except.ok (s, [])
    resume := fun s _ => Except.ok (s + 1, [])
    getState := fun _ => ⟨[], []⟩ }

/-- An engine whose initial invocation raises. -/
def engFailInit : Engine Nat :=
  { invokeInit := fun _ => Except.error ("boom".toList)
    resume := fun s _ => Except.ok (s, [])
    getState := fun _ => ⟨[], []⟩ }

/-- The initial loop state used by concrete runs. -/
def lsInit : LoopState Nat := ⟨0, [], 0, 0⟩

/-- A concrete task collection reporting three interrupts across two
    attribute-bearing tasks, with one attribute-less task between them. -/
def tasksC2 : List WTask :=
  [ ⟨true, [("ask scope".toList), ("ask depth".toList)]⟩,
    ⟨false, [("hidden".toList)]⟩,
    ⟨true, [("confirm".toList)]⟩ ]

/-- An engine that always reports a pending snapshot with tasksC2. -/
def engC2 : Engine Nat :=
  { invokeInit := fun s => Except.ok (s, [])
    resume := fun s _ => Except.ok (s + 1, [])
    getState := fun _ => ⟨[("synthesize".toList)], tasksC2⟩ }

/-- A concrete operator stream with two blank replies and one typed one. -/
def opsC2 : Nat → Str :=
  fun n => if n = 0 then [] else if n = 1 then ("  ".toList) else (" dig deeper ".toList)

/-- C1 (amended): in the interrupt loop, the value passed to each resume
    invocation is the literal token approved when the corresponding raw
    operator line is empty after whitespace trimming, and otherwise the
    trimmed line; the j-th resume of a successful pass consumes the j-th
    pending operator line. -/
theorem C1_reply_normalization {σ : Type} (E : Engine σ) (ops : Nat → Str)
    (vs : List Str) (ls ls2 : LoopState σ) (tr : List Event)
    (h : processInterrupts E ops vs ls = (tr, StepRes.ok ls2)) :
    resumeValues tr =
      (List.range vs.length).map (fun j =>
        if pyStrip (ops (ls.inputIdx + j)) = [] then ("approved".toList)
        else pyStrip (ops (ls.inputIdx + j))) := by
  obtain ⟨ht, _, _⟩ := processInterrupts_ok E ops vs ls tr ls2 h
  rw [ht, resumeValues_expected]
  simp only [normalizeFeedback]

/-- C1 witness: a blank line and a typed line, consumed in order, resume
    with the token approved and with the trimmed text respectively. -/
theorem C1_witness :
    resumeValues
        [ Event.banner 1 ("g1".toList), Event.resumeCall ("approved".toList),
          Event.banner 2 ("g2".toList), Event.resumeCall ("go".toList) ] =
      (List.range ([("g1".toList), ("g2".toList)] : List Str).length).map (fun j =>
        if pyStrip ((fun n => if n = 0 then ("   ".toList) else (" go ".toList))
              (lsInit.inputIdx + j)) = [] then ("approved".toList)
        else pyStrip ((fun n => if n = 0 then ("   ".toList) else (" go ".toList))
              (lsInit.inputIdx + j))) :=
  C1_reply_normalization engAccept
    (fun n => if n = 0 then ("   ".toList) else (" go ".toList))
    [("g1".toList), ("g2".toList)] lsInit ⟨2, [], 2, 2⟩
    [ Event.banner 1 ("g1".toList), Event.resumeCall ("approved".toList),
      Event.banner 2 ("g2".toList), Event.resumeCall ("go".toList) ]
    (by decide)

/-- C1 counterexample: an operator reply that is non-empty after trimming
    is not passed through unchanged; the surrounding whitespace is
    stripped before the resume invocation. -/
theorem C1_counterexample :
    resumeValues
        (processInterrupts engAccept (fun _ => (" ok ".toList)) [("gate".toList)] lsInit).1 =
      [("ok".toList)] ∧
    resumeValues
        (processInterrupts engAccept (fun _ => (" ok ".toList)) [("gate".toList)] lsInit).1 ≠
      [(" ok ".toList)] := by
  constructor
  · decide
  · decide

/-- The trace of the concrete three-interrupt iteration. -/
def trC2 : List Event :=
  [ Event.banner 1 ("ask scope".toList), Event.resumeCall ("approved".toList),
    Event.banner 2 ("ask depth".toList), Event.resumeCall ("approved".toList),
    Event.banner 3 ("confirm".toList), Event.resumeCall ("dig deeper".toList) ]

/-- C2: when the snapshot examined by one loop iteration reports N
    interrupt requests across its tasks, a successful pass performs
    exactly N resume invocations, each immediately after its banner, in
    the order the interrupts are reported by the task collection, and the
    loop queries the workflow state again only after all of them;
    resumption is never batched. -/
theorem C2_resume_per_interrupt {σ : Type} (E : Engine σ) (ops : Nat → Str)
    (tasks : List WTask) (ls ls2 : LoopState σ) (tr : List Event) (fuel : Nat)
    (h : processTasks E ops tasks ls = (tr, StepRes.ok ls2))
    (hnext : (E.getState ls.eng).next ≠ [])
    (htasks : (E.getState ls.eng).tasks = tasks) :
    countResume tr = (reportedInterrupts tasks).length ∧
    tr = expectedIntrTrace ops ls.gateNum ls.inputIdx (reportedInterrupts tasks) ∧
    (loopModel E ops (fuel + 1) ls).1 =
      Event.getStateEv :: tr ++ (loopModel E ops fuel ls2).1 := by
  obtain ⟨ht, _, _⟩ := processTasks_ok E ops tasks ls tr ls2 h
  refine ⟨?_, ht, ?_⟩
  · rw [ht, countResume_expected]
  · simp only [loopModel]
    rw [if_neg hnext, htasks, h]

/-- C2 witness: the concrete three-interrupt snapshot resumes exactly
    three times in discovery order before the next state query. -/
theorem C2_witness :
    countResume trC2 = (reportedInterrupts tasksC2).length ∧
    trC2 = expectedIntrTrace opsC2 lsInit.gateNum lsInit.inputIdx (reportedInterrupts tasksC2) ∧
    (loopModel engC2 opsC2 1 lsInit).1 =
      Event.getStateEv :: trC2 ++ (loopModel engC2 opsC2 0 (⟨3, [], 3, 3⟩ : LoopState Nat)).1 :=
  C2_resume_per_interrupt engC2 opsC2 tasksC2 lsInit ⟨3, [], 3, 3⟩ trC2 0
    (by decide) (by decide) rfl

/-- C7: an exception raised while invoking or resuming the workflow
    becomes the run's outcome with no retry: after the raise marker the
    only further event is the log teardown, which runs exactly once and
    last, exactly as it does on every normally completed run. -/
theorem C7_engine_failure_teardown {σ : Type} (E : Engine σ) (s0 : σ) (ops : Nat → Str)
    (fuel : Nat) (e : EngErr)
    (h : (runModel E s0 ops fuel).2 = Outcome.raised e) :
    ((runModel E s0 ops fuel).1.getLast? = some Event.stopLogEv ∧
     (runModel E s0 ops fuel).1.count Event.stopLogEv = 1 ∧
     (runModel E s0 ops fuel).1.dropLast.getLast? = some Event.raised ∧
     (runModel E s0 ops fuel).1.count Event.raised = 1) ∧
    (∀ (σ2 : Type) (E2 : Engine σ2) (s2 : σ2) (ops2 : Nat → Str) (fuel2 : Nat) (r : RunResult),
      (runModel E2 s2 ops2 fuel2).2 = Outcome.ok r →
      (runModel E2 s2 ops2 fuel2).1.getLast? = some Event.stopLogEv ∧
      (runModel E2 s2 ops2 fuel2).1.count Event.stopLogEv = 1) := by
  constructor
  · obtain ⟨pre, hpre, hr, hs⟩ := runModel_raised E s0 ops fuel e h
    have hsplit : (runModel E s0 ops fuel).1 =
        (pre ++ [Event.raised]) ++ [Event.stopLogEv] := by
      simp [hpre]
    have hs2 : Event.stopLogEv ∉ pre ++ [Event.raised] := by
      simp only [List.mem_append, List.mem_singleton]
      rintro (hx | hx)
      · exact hs hx
      · exact Event.noConfusion hx
    obtain ⟨hlast, hcount⟩ := concat_last_count (pre ++ [Event.raised]) Event.stopLogEv hs2
    refine ⟨?_, ?_, ?_, ?_⟩
    · rw [hsplit]; exact hlast
    · rw [hsplit]; exact hcount
    · rw [hsplit, List.dropLast_concat]; exact List.getLast?_concat pre
    · rw [hsplit, List.count_append, List.count_append, List.count_eq_zero.mpr hr]
      decide
  · intro σ2 E2 s2 ops2 fuel2 r h2
    obtain ⟨pre, hpre, hs⟩ := runModel_okTeardown E2 s2 ops2 fuel2 r h2
    obtain ⟨hlast, hcount⟩ := concat_last_count pre Event.stopLogEv hs
    rw [hpre]
    exact ⟨hlast, hcount⟩

/-- C7 witness: a run whose initial invocation raises tears the log down
    exactly once, immediately after the raise; a run that completes
    normally also tears it down exactly once, at the end. -/
theorem C7_witness :
    ((runModel engFailInit 0 (fun _ => []) 1).1.getLast? = some Event.stopLogEv ∧
     (runModel engFailInit 0 (fun _ => []) 1).1.count Event.stopLogEv = 1 ∧
     (runModel engFailInit 0 (fun _ => []) 1).1.dropLast.getLast? = some Event.raised ∧
     (runModel engFailInit 0 (fun _ => []) 1).1.count Event.raised = 1) ∧
    ((runModel engAccept 0 (fun _ => []) 1).1.getLast? = some Event.stopLogEv ∧
     (runModel engAccept 0 (fun _ => []) 1).1.count Event.stopLogEv = 1) :=
  have T := C7_engine_failure_teardown engFailInit 0 (fun _ => []) 1 ("boom".toList) rfl
  ⟨T.1, T.2 Nat engAccept 0 (fun _ => []) 1 [] rfl⟩

/-- C10: a task in the snapshot's collection that does not expose an
    interrupts attribute is skipped entirely: processing the collection
    with it equals processing the collection without it, so it yields no
    banner, no prompt, no resume invocation and no failure. -/
theorem C10_skip_attrless_task {σ : Type} (E : Engine σ) (ops : Nat → Str)
    (t : WTask) (ts : List WTask) (ls : LoopState σ)
    (h : t.hasInterrupts = false) :
    processTasks E ops (t :: ts) ls = processTasks E ops ts ls := by
  simp [processTasks, h]

/-- C10 witness: a concrete attribute-less task contributes nothing. -/
theorem C10_witness :
    processTasks engAccept (fun _ => []) [⟨false, [("ignored".toList)]⟩] lsInit =
      processTasks engAccept (fun _ => []) [] lsInit :=
  C10_skip_attrless_task engAccept (fun _ => []) ⟨false, [("ignored".toList)]⟩ [] lsInit rfl

/-- C3 counterexample: on the sample inline-markup text, the run list
    produced by the source is not the claimed four-run list (and in
    particular not three runs long): the split also yields a leading empty
    unstyled run. -/
theorem C3_counterexample :
    add_formatted_runs ("**bold** and *italic* and plain".toList) ≠
      [(Style.bold, ("bold".toList)), (Style.none, (" and ".toList)),
       (Style.italic, ("italic".toList)), (Style.none, (" and plain".toList))] ∧
    (add_formatted_runs ("**bold** and *italic* and plain".toList)).length ≠ 3 := by
  constructor
  · decide
  · decide

/-- C3 (amended): the sample text parses into five runs, a leading empty
    unstyled run followed by bold, unstyled, italic and unstyled runs, and
    the concatenation of the run texts in order equals the input with the
    emphasis markers stripped. -/
theorem C3_runs_roundtrip :
    add_formatted_runs ("**bold** and *italic* and plain".toList) =
      [(Style.none, []), (Style.bold, ("bold".toList)), (Style.none, (" and ".toList)),
       (Style.italic, ("italic".toList)), (Style.none, (" and plain".toList))] ∧
    joinSep [] ((add_formatted_runs ("**bold** and *italic* and plain".toList)).map Prod.snd) =
      ("bold and italic and plain".toList) := by
  constructor
  · decide
  · decide

/-- C4: the metadata record consists exactly of the fields timestamp,
    input_query, auto_approve, models and elapsed_seconds in insertion
    order, the approval flag is always false, and the elapsed value is
    rounded to one decimal place, so 12.34 becomes 12.3. -/
theorem C4_meta_record (config : Config) (nowIso : Str) (elapsed : ℚ) :
    (metaYaml config nowIso elapsed).map Prod.fst =
      [("timestamp".toList), ("input_query".toList), ("auto_approve".toList),
       ("models".toList), ("elapsed_seconds".toList)] ∧
    List.lookup ("auto_approve".toList) (metaYaml config nowIso elapsed) =
      some (YamlVal.b false) ∧
    List.lookup ("elapsed_seconds".toList) (metaYaml config nowIso elapsed) =
      some (YamlVal.num (pyRound1 elapsed)) ∧
    pyRound1 (617 / 50) = 123 / 10 := by
  refine ⟨rfl, rfl, rfl, ?_⟩
  have hfl : ⌊(617 / 50 : ℚ) * 10⌋ = 123 := by
    rw [Int.floor_eq_iff]
    norm_num
  simp only [pyRound1, roundHalfEven, hfl]
  norm_num

/-- C5: for every input, the markdown file and the metadata record are
    written, in that order, before the docx block runs, whatever the docx
    outcome is; an import failure of the docx backend produces the skip
    notice and any other exception during composition produces the
    warning, and in both cases the trailing prints still follow, so a
    docx failure never aborts save_all or removes the earlier writes. -/
theorem C5_docx_failure_contained (result : RunResult) (config : Config)
    (ts nowIso : Str) (elapsed : ℚ) (m : Str) :
    (∀ docx : DocxOutcome,
      (save_all result config ts nowIso elapsed docx).take 4 =
        [ SaveEvent.writeFileStr (joinPath ts (mdFileName ts)) (mdContent result config nowIso),
          SaveEvent.printed (("Markdown: ".toList) ++ joinPath ts (mdFileName ts)),
          SaveEvent.writeMeta (joinPath ts ("meta.yaml".toList)) (metaYaml config nowIso elapsed),
          SaveEvent.printed (("Meta:     ".toList) ++ joinPath ts ("meta.yaml".toList)) ]) ∧
    save_all result config ts nowIso elapsed (DocxOutcome.failure m) =
      [ SaveEvent.writeFileStr (joinPath ts (mdFileName ts)) (mdContent result config nowIso),
        SaveEvent.printed (("Markdown: ".toList) ++ joinPath ts (mdFileName ts)),
        SaveEvent.writeMeta (joinPath ts ("meta.yaml".toList)) (metaYaml config nowIso elapsed),
        SaveEvent.printed (("Meta:     ".toList) ++ joinPath ts ("meta.yaml".toList)),
        SaveEvent.printed (("[WARNING] DOCX generation failed: ".toList) ++ m),
        SaveEvent.printed (("Log:      ".toList) ++ joinPath ts ("log.txt".toList)),
        SaveEvent.printed (("\nAll outputs saved to: ".toList) ++ ts) ] ∧
    save_all result config ts nowIso elapsed DocxOutcome.importError =
      [ SaveEvent.writeFileStr (joinPath ts (mdFileName ts)) (mdContent result config nowIso),
        SaveEvent.printed (("Markdown: ".toList) ++ joinPath ts (mdFileName ts)),
        SaveEvent.writeMeta (joinPath ts ("meta.yaml".toList)) (metaYaml config nowIso elapsed),
        SaveEvent.printed (("Meta:     ".toList) ++ joinPath ts ("meta.yaml".toList)),
        SaveEvent.printed ("[SKIP] python-docx not installed".toList),
        SaveEvent.printed (("Log:      ".toList) ++ joinPath ts ("log.txt".toList)),
        SaveEvent.printed (("\nAll outputs saved to: ".toList) ++ ts) ] := by
  refine ⟨?_, rfl, rfl⟩
  intro docx
  cases docx <;> rfl

/-- C6: the renderer classifies each whitespace-trimmed line by prefix in
    the precedence order level-3 heading, level-2 heading, level-1
    heading, bullet, non-blank paragraph, blank no-element; in particular
    a line of three hashes and a space is always a level-3 heading. -/
theorem C6_line_classification (line : Str) :
    (startsWith (pyStrip line) ("### ".toList) = true →
      md_line_elem line = some (MdElem.heading 3 ((pyStrip line).drop 4))) ∧
    (startsWith (pyStrip line) ("### ".toList) = false →
      startsWith (pyStrip line) ("## ".toList) = true →
      md_line_elem line = some (MdElem.heading 2 ((pyStrip line).drop 3))) ∧
    (startsWith (pyStrip line) ("### ".toList) = false →
      startsWith (pyStrip line) ("## ".toList) = false →
      startsWith (pyStrip line) ("# ".toList) = true →
      md_line_elem line = some (MdElem.heading 1 ((pyStrip line).drop 2))) ∧
    (startsWith (pyStrip line) ("### ".toList) = false →
      startsWith (pyStrip line) ("## ".toList) = false →
      startsWith (pyStrip line) ("# ".toList) = false →
      (startsWith (pyStrip line) ("- ".toList) || startsWith (pyStrip line) ("* ".toList)) = true →
      md_line_elem line = some (MdElem.bullet (add_formatted_runs ((pyStrip line).drop 2)))) ∧
    (startsWith (pyStrip line) ("### ".toList) = false →
      startsWith (pyStrip line) ("## ".toList) = false →
      startsWith (pyStrip line) ("# ".toList) = false →
      (startsWith (pyStrip line) ("- ".toList) || startsWith (pyStrip line) ("* ".toList)) = false →
      pyStrip line ≠ [] →
      md_line_elem line = some (MdElem.para (add_formatted_runs (pyStrip line)))) ∧
    (pyStrip line = [] → md_line_elem line = Option.none) ∧
    md_line_elem ("### Title".toList) = some (MdElem.heading 3 ("Title".toList)) := by
  refine ⟨?_, ?_, ?_, ?_, ?_, ?_, ?_⟩
  · intro h3
    simp at h3
    simp [md_line_elem, h3]
  · intro h3 h2
    simp at h3 h2
    simp [md_line_elem, h3, h2]
  · intro h3 h2 h1
    simp at h3 h2 h1
    simp [md_line_elem, h3, h2, h1]
  · intro h3 h2 h1 hb
    simp at h3 h2 h1 hb
    rcases hb with hb | hb
    · simp [md_line_elem, h3, h2, h1, hb]
    · simp [md_line_elem, h3, h2, h1, hb]
  · intro h3 h2 h1 hb hne
    simp at h3 h2 h1 hb
    obtain ⟨hba, hbb⟩ := hb
    simp [md_line_elem, h3, h2, h1, hba, hbb, hne]
  · intro hblank
    simp [md_line_elem, hblank, startsWith, List.isPrefixOf]
  · decide

/-- C6 witness: the sample heading line is classified as a level-3
    heading through the first branch of the precedence chain. -/
theorem C6_witness :
    md_line_elem ("### Title".toList) =
      some (MdElem.heading 3 ((pyStrip ("### Title".toList)).drop 4)) :=
  (C6_line_classification ("### Title".toList)).1 (by decide)

/-- C8: after the paired teardown, sys.stdout is again the original
    destination captured at start, a subsequent write reaches only that
    destination and never the closed log file, and a teardown without a
    paired start is a no-op that raises nothing. -/
theorem C8_stop_restores (s0 s : LogSys)
    (h : s0.stdout = some StdoutTarget.orig)
    (h2 : s.teeSet = false) :
    (stop_log (start_log s0)).stdout = some StdoutTarget.orig ∧
    writeDests (stop_log (start_log s0)) = WriteOut.wrote [Dest.console] ∧
    (stop_log (start_log s0)).teeOpen = false ∧
    stop_log s = s := by
  simp [start_log, stop_log, writeDests, h, h2]

/-- C8 witness: a concrete paired start and stop restores the original
    stream, and a stop on the restored state is a no-op. -/
theorem C8_witness :
    (stop_log (start_log (LogSys.mk (some StdoutTarget.orig) false false Option.none))).stdout =
      some StdoutTarget.orig ∧
    writeDests (stop_log (start_log (LogSys.mk (some StdoutTarget.orig) false false Option.none))) =
      WriteOut.wrote [Dest.console] ∧
    (stop_log (start_log (LogSys.mk (some StdoutTarget.orig) false false Option.none))).teeOpen =
      false ∧
    stop_log (LogSys.mk (some StdoutTarget.orig) false false Option.none) =
      LogSys.mk (some StdoutTarget.orig) false false Option.none :=
  C8_stop_restores (LogSys.mk (some StdoutTarget.orig) false false Option.none)
    (LogSys.mk (some StdoutTarget.orig) false false Option.none) rfl rfl

/-- C9: when the result mapping lacks the recommendation and action_plan
    keys, save_all reads them through dict.get and proceeds exactly as for
    an empty mapping: the markdown content is built with the empty string
    in place of the missing fields, the docx body renders no elements for
    them, and no step fails. -/
theorem C9_missing_fields (result : RunResult) (config : Config) (ts nowIso : Str)
    (elapsed : ℚ) (docx : DocxOutcome)
    (h1 : List.lookup ("recommendation".toList) result = Option.none)
    (h2 : List.lookup ("action_plan".toList) result = Option.none) :
    docxBody result = [] ∧
    mdContent result config nowIso = mdContent [] config nowIso ∧
    save_all result config ts nowIso elapsed docx = save_all [] config ts nowIso elapsed docx := by
  have hg1 : pyGet result ("recommendation".toList) [] = [] := by
    simp only [pyGet, h1]
    rfl
  have hg2 : pyGet result ("action_plan".toList) [] = [] := by
    simp only [pyGet, h2]
    rfl
  refine ⟨?_, ?_, ?_⟩
  · simp only [docxBody, hg1, hg2]
    simp
  · simp only [mdContent, hg1, hg2]
    simp [pyGet]
  · cases docx <;>
      · simp only [save_all, mdContent, composeDocx, docxBody, hg1, hg2]
        simp [pyGet]

/-- C9 witness: a concrete result mapping without the two report keys
    exports exactly as the empty mapping does. -/
theorem C9_witness :
    docxBody [(("other".toList), ("x".toList))] = [] ∧
    mdContent [(("other".toList), ("x".toList))]
        (Config.mk ("Q".toList) [(("a".toList), AgentCfg.mk ("m".toList))]) ("T".toList) =
      mdContent [] (Config.mk ("Q".toList) [(("a".toList), AgentCfg.mk ("m".toList))])
        ("T".toList) ∧
    save_all [(("other".toList), ("x".toList))]
        (Config.mk ("Q".toList) [(("a".toList), AgentCfg.mk ("m".toList))])
        ("20260101_000000".toList) ("T".toList) 0 DocxOutcome.ok =
      save_all [] (Config.mk ("Q".toList) [(("a".toList), AgentCfg.mk ("m".toList))])
        ("20260101_000000".toList) ("T".toList) 0 DocxOutcome.ok :=
  C9_missing_fields [(("other".toList), ("x".toList))]
    (Config.mk ("Q".toList) [(("a".toList), AgentCfg.mk ("m".toList))])
    ("20260101_000000".toList) ("T".toList) 0 DocxOutcome.ok (by decide) (by decide)

end MBA
